import Mathlib

/-!
Shallow embedding of the OScapeDLCapture fixed-width binary parameter codec,
request builder and response mapper (src/src/custom.cpp and
src/src/custom_static.cpp, exported entry `CustomFunctionExample`).

Byte strings are modelled as `List Nat` (each element one byte value); the
inbound buffer is a length plus a byte-valued memory function, so that frame
properties (which offsets are read) can be stated directly.
-/

namespace OScape

/-- Bytes of the reserved control parameter name "CFResp". -/
def kCFResp : List Nat := [67, 70, 82, 101, 115, 112]

/-- Bytes of the control value "yes". -/
def kYes : List Nat := [121, 101, 115]

/-- An inbound buffer: a length and the byte at each offset.  Only offsets
below `len` are meaningful; theorems about reads quantify over the rest. -/
structure Buffer where
  len : Nat
  byte : Nat → Nat

/-- Build a buffer from an explicit byte list (out-of-range reads give 0). -/
def Buffer.ofList (l : List Nat) : Buffer :=
  ⟨l.length, fun j => l.getD j 0⟩

/-- C `isspace` on the bytes `atoi` skips (space, \t, \n, \v, \f, \r). -/
def isSpaceB (b : Nat) : Bool := b == 32 || (9 ≤ b && b ≤ 13)

/-- ASCII decimal digit test. -/
def isDigitB (b : Nat) : Bool := 48 ≤ b && b ≤ 57

/-- Value of a list of ASCII digits, most significant first. -/
def digitsToNat (ds : List Nat) : Nat := ds.foldl (fun a d => 10 * a + (d - 48)) 0

/-- C `atoi` on a NUL-terminated character list: skip leading whitespace, an
optional sign, then leading digits; anything else yields 0. -/
def atoiChars (s : List Nat) : Int :=
  let t := s.dropWhile isSpaceB
  match t with
  | [] => 0
  | c :: rest =>
    if c == 45 then - (digitsToNat (rest.takeWhile isDigitB) : Int)
    else if c == 43 then (digitsToNat (rest.takeWhile isDigitB) : Int)
    else (digitsToNat (t.takeWhile isDigitB) : Int)

/-- Conversion of the `int` result of `atoi` to C `unsigned int` (mod 2^32),
as in `const unsigned int numParameters = atoi(numParametersAsString)`. -/
def toUInt32Nat (x : Int) : Nat := (x % 4294967296).toNat

/-- The count parsed from the two header bytes: the C code builds the string
`{dataIn[0], dataIn[1], '\0'}` (so a NUL byte truncates it) and applies
`atoi`, then converts to `unsigned int`. -/
def parseCount (b0 b1 : Nat) : Nat :=
  toUInt32Nat (atoiChars (([b0, b1]).takeWhile (fun b => b != 0)))

/-- Declared parameter count of a buffer (reads bytes 0 and 1). -/
def Buffer.countOf (buf : Buffer) : Nat := parseCount (buf.byte 0) (buf.byte 1)

/-- Canonical string-from-fixed-field rule: the `n` bytes at offset `off`,
up to (not including) the first zero byte.  Matches the C code's
`memcpy` into a zero-initialised `n+1` array followed by `string_view` /
`strlen` which stop at the first NUL. -/
def fieldStr (buf : Buffer) (off n : Nat) : List Nat :=
  ((List.range n).map (fun j => buf.byte (off + j))).takeWhile (fun b => b != 0)

/-- Key of record `i`: 32-byte field at offset `2 + i*160`. -/
def keyAt (buf : Buffer) (i : Nat) : List Nat := fieldStr buf (2 + 160 * i) 32

/-- Value of record `i`: 128-byte field at offset `2 + i*160 + 32`. -/
def valAt (buf : Buffer) (i : Nat) : List Nat := fieldStr buf (2 + 160 * i + 32) 128

/-- Decode-stage error taxonomy of the spec (§7). -/
inductive DecodeError where
  | InvalidInput
  | TooManyParameters
  | TruncatedBuffer
deriving DecidableEq

/-- Decidable equality of decode results, so witnesses can be checked by
evaluation. -/
instance {ε α : Type} [DecidableEq ε] [DecidableEq α] : DecidableEq (Except ε α) :=
  fun x y =>
    match x, y with
    | .error a, .error b =>
      if h : a = b then .isTrue (by rw [h])
      else .isFalse (fun hh => by cases hh; exact h rfl)
    | .ok a, .ok b =>
      if h : a = b then .isTrue (by rw [h])
      else .isFalse (fun hh => by cases hh; exact h rfl)
    | .error _, .ok _ => .isFalse (fun hh => by cases hh)
    | .ok _, .error _ => .isFalse (fun hh => by cases hh)

/-- Read the records at the given indices, in order.  Each record is
bounds-checked before extraction: `valueOffset + 128 > len` fails with
`TruncatedBuffer` (the spec's mandated hardening of the source loop, which
trusted caller-supplied length; field extraction itself is the source's). -/
def readRecsAux (buf : Buffer) : List Nat → Except DecodeError (List (List Nat × List Nat))
  | [] => .ok []
  | i :: is =>
    if buf.len < 2 + 160 * i + 160 then .error .TruncatedBuffer
    else
      match readRecsAux buf is with
      | .error e => .error e
      | .ok rest => .ok ((keyAt buf i, valAt buf i) :: rest)

/-- Read records `0..n-1`. -/
def readRecords (buf : Buffer) (n : Nat) : Except DecodeError (List (List Nat × List Nat)) :=
  readRecsAux buf (List.range n)

/-- Lexicographic byte-wise order on byte strings; `std::string`'s
`operator<` (via `char_traits<char>::compare`, which compares as
unsigned char, i.e. `memcmp` order). -/
def ltB : List Nat → List Nat → Bool
  | [], [] => false
  | [], _ :: _ => true
  | _ :: _, [] => false
  | a :: as, b :: bs => if a < b then true else if b < a then false else ltB as bs

/-- Ordered-map insertion with last-write-wins, the effect of
`parameters[keyStr] = valueStr` on a `std::map` kept as a sorted
association list. -/
def mapInsert (k v : List Nat) : List (List Nat × List Nat) → List (List Nat × List Nat)
  | [] => [(k, v)]
  | (k', v') :: rest =>
    if ltB k k' then (k, v) :: (k', v') :: rest
    else if k == k' then (k, v) :: rest
    else (k', v') :: mapInsert k v rest

/-- The parameter map built by the decode loop: each record inserted in
order, last write wins. -/
def buildMap (recs : List (List Nat × List Nat)) : List (List Nat × List Nat) :=
  recs.foldl (fun m r => mapInsert r.1 r.2 m) []

/-- `shouldReturnResponse`: set inside the decode loop when a record has key
"CFResp" and value "yes"; sticky once set. -/
def flagOf (recs : List (List Nat × List Nat)) : Bool :=
  recs.any (fun r => r.1 == kCFResp && r.2 == kYes)

/-- Decode of the inbound buffer: `none` models a null `dataIn`.  Null and
(spec-hardened) shorter-than-2 buffers fail with `InvalidInput`; counts
above 100 fail with `TooManyParameters`; records are then read with the
spec's bounds check and folded into the ordered map, alongside the
`shouldReturnResponse` control flag. -/
def decode : Option Buffer → Except DecodeError (List (List Nat × List Nat) × Bool)
  | none => .error .InvalidInput
  | some buf =>
    if buf.len < 2 then .error .InvalidInput
    else if 100 < buf.countOf then .error .TooManyParameters
    else
      match readRecords buf buf.countOf with
      | .error e => .error e
      | .ok recs => .ok (buildMap recs, flagOf recs)

/-- Unreserved bytes that URL query-component escaping leaves unchanged:
ASCII letters, digits, hyphen, period, underscore and tilde. -/
def isUnreservedB (b : Nat) : Bool :=
  (65 ≤ b && b ≤ 90) || (97 ≤ b && b ≤ 122) || (48 ≤ b && b ≤ 57) ||
    b == 45 || b == 46 || b == 95 || b == 126

/-- Upper-case hexadecimal digit of a value below 16. -/
def hexDigitB (n : Nat) : Nat := if n < 10 then 48 + n else 55 + n

/-- Percent-encoding of one byte. -/
def percentEncodeByte (b : Nat) : List Nat :=
  if isUnreservedB b then [b] else [37, hexDigitB (b / 16), hexDigitB (b % 16)]

/-- Modelled from the spec: `UrlEncode` in the source delegates to the
external transport library's `curl_easy_escape`, which is not part of this
repository; the spec pins it down as standard URL query-component escaping
(unreserved: letters, digits, `-_.~`; everything else percent-encoded,
space as `%20`). -/
def percentEncode (s : List Nat) : List Nat := (s.map percentEncodeByte).flatten

/-- Per-invocation configuration (§3 RequestConfig). -/
structure RequestConfig where
  baseUrl : List Nat
  timeout : Nat
  connectTimeout : Nat
  verifySSL : Bool
  sslCertFile : List Nat

/-- One step of the URL-building loop, carrying the accumulated URL and the
`firstParam` flag (`true` while no pair has been emitted yet): skip
"CFResp", otherwise append `"&"` (unless first) then `key=encoded`. -/
def urlStep (acc : List Nat × Bool) (p : List Nat × List Nat) : List Nat × Bool :=
  if p.1 == kCFResp then acc
  else (acc.1 ++ (if acc.2 then [] else [38]) ++ p.1 ++ [61] ++ percentEncode p.2, false)

/-- URL construction: `config.baseUrl + "?"` then the parameter pairs in map
order. -/
def buildUrl (ps : List (List Nat × List Nat)) (config : RequestConfig) : List Nat :=
  (ps.foldl urlStep (config.baseUrl ++ [63], true)).1

/-- C `strncpy(dst, src, n-1)` into a zero-initialised `n`-byte array:
bytes of `src` up to its first NUL, at most `n-1` of them, the rest of the
field zero. -/
def strncpyField (n : Nat) (s : List Nat) : List Nat :=
  ((s.takeWhile (fun b => b != 0)).take (n - 1)) ++
    List.replicate (n - ((s.takeWhile (fun b => b != 0)).take (n - 1)).length) 0

/-- The 162 bytes the response mapper writes at the head of `dataOut`:
header `"01"`, 32-byte key field "CFResp", 128-byte value field holding the
response body under strncpy semantics; bytes past 162 are untouched. -/
def writeOut (body out : List Nat) : List Nat :=
  [48, 49] ++ strncpyField 32 kCFResp ++ strncpyField 128 body ++ out.drop 162

/-- Outbound encoder applied to an arbitrary single pair (the source
instantiates it with key "CFResp"): header `"01"`, then the two
strncpy-filled fixed fields. -/
def encodePair (k v : List Nat) : List Nat :=
  [48, 49] ++ strncpyField 32 k ++ strncpyField 128 v

/-- The entry point `CustomFunctionExample`, with the HTTP exchange
abstracted as its result `tr` (`.error` models curl init/perform failure):
decode, perform, check the 2xx status range, then conditionally write the
outbound buffer.  Returns the result code (0 success, 1 failure) and the
final contents of `dataOut`. -/
def CustomFunctionExample (dataIn : Option Buffer) (dataOut : Option (List Nat))
    (tr : Except Unit (Int × List Nat)) : Nat × Option (List Nat) :=
  match decode dataIn with
  | .error _ => (1, dataOut)
  | .ok (_, flag) =>
    match tr with
    | .error _ => (1, dataOut)
    | .ok (status, body) =>
      if status < 200 || 300 ≤ status then (1, dataOut)
      else
        match dataOut, flag with
        | some out, true => (0, some (writeOut body out))
        | _, _ => (0, dataOut)

/-- The query components the URL loop emits: one `key=percentEncode(value)`
per non-"CFResp" pair, in list order. -/
def urlParts (ps : List (List Nat × List Nat)) : List (List Nat) :=
  (ps.filter (fun p => p.1 != kCFResp)).map (fun p => p.1 ++ [61] ++ percentEncode p.2)

/-- Right-pad a byte string with zeros to length `n` (test-vector helper). -/
def padF (n : Nat) (s : List Nat) : List Nat := s ++ List.replicate (n - s.length) 0

/-- Bytes of "no". -/
def kNo : List Nat := [110, 111]

/-- A concrete inbound buffer with two records, (CFResp, yes) then
(CFResp, no): header "02", then the two fixed-width records. -/
def dupBuf : List Nat :=
  [48, 50] ++ padF 32 kCFResp ++ padF 128 kYes ++ padF 32 kCFResp ++ padF 128 kNo

/-- A concrete inbound buffer with one record (tel, 0744): header "01". -/
def telBuf : List Nat :=
  [48, 49] ++ padF 32 [116, 101, 108] ++ padF 128 [48, 55, 52, 52]

section Lemmas

lemma takeWhile_append_all {p : Nat → Bool} {c : List Nat} (d : List Nat)
    (h : ∀ x ∈ c, p x = true) : (c ++ d).takeWhile p = c ++ d.takeWhile p := by
  induction c with
  | nil => simp
  | cons a t ih =>
    have ha : p a = true := h a (by simp)
    simp only [List.cons_append, List.takeWhile_cons, ha, if_true]
    rw [ih (fun x hx => h x (by simp [hx]))]

lemma takeWhile_replicate_zero (m : Nat) :
    (List.replicate m 0).takeWhile (fun b : Nat => b != 0) = [] := by
  cases m with
  | zero => rfl
  | succ k => simp [List.replicate, List.takeWhile_cons]

lemma takeWhile_nil_of_all {p : Nat → Bool} {l : List Nat}
    (h : ∀ b ∈ l, p b = false) : l.takeWhile p = [] := by
  cases l with
  | nil => rfl
  | cons a t => simp [List.takeWhile_cons, h a (by simp)]

lemma takeWhile_getD {p : Nat → Bool} (s : List Nat) (j : Nat) (d : Nat)
    (hj : j < (s.takeWhile p).length) : (s.takeWhile p).getD j d = s.getD j d := by
  induction s generalizing j with
  | nil => simp at hj
  | cons a t ih =>
    by_cases ha : p a
    · simp only [List.takeWhile_cons, ha, if_true] at hj ⊢
      cases j with
      | zero => rfl
      | succ i =>
        simp only [List.getD_cons_succ]
        exact ih i (by simpa using hj)
    · simp [List.takeWhile_cons, ha] at hj

lemma rangeMap_window (l : List Nat) (a n : Nat) (h : a + n ≤ l.length) :
    (List.range n).map (fun j => l.getD (a + j) 0) = (l.drop a).take n := by
  apply List.ext_getElem
  · simp only [List.length_map, List.length_range, List.length_take, List.length_drop]
    omega
  · intro i h1 h2
    have hi : i < n := by simpa using h1
    simp only [List.getElem_map, List.getElem_range, List.getElem_take, List.getElem_drop]
    rw [List.getD_eq_getElem _ _ (by omega)]

lemma strncpyField_length (n : Nat) (s : List Nat) (h : 1 ≤ n) :
    (strncpyField n s).length = n := by
  have hc : ((s.takeWhile (fun b => b != 0)).take (n - 1)).length ≤ n - 1 :=
    le_trans (List.length_take_le _ _) (by omega)
  simp only [strncpyField, List.length_append, List.length_replicate]
  omega

lemma strncpyField_all_front (n : Nat) (s : List Nat) :
    ∀ x ∈ (s.takeWhile (fun b => b != 0)).take (n - 1), (x != 0) = true := by
  intro x hx
  have hx' : x ∈ s.takeWhile (fun b => b != 0) := List.mem_of_mem_take hx
  exact List.mem_takeWhile_imp (p := fun b => b != 0) hx'

lemma takeWhile_strncpyField (n : Nat) (s : List Nat) :
    (strncpyField n s).takeWhile (fun b => b != 0) =
      (s.takeWhile (fun b => b != 0)).take (n - 1) := by
  rw [strncpyField, takeWhile_append_all _ (strncpyField_all_front n s),
    takeWhile_replicate_zero, List.append_nil]

lemma readRecsAux_ok (buf : Buffer) (is : List Nat)
    (h : ∀ i ∈ is, 2 + 160 * i + 160 ≤ buf.len) :
    readRecsAux buf is = .ok (is.map (fun i => (keyAt buf i, valAt buf i))) := by
  induction is with
  | nil => rfl
  | cons i t ih =>
    have hi : 2 + 160 * i + 160 ≤ buf.len := h i (by simp)
    simp only [readRecsAux, if_neg (by omega : ¬ buf.len < 2 + 160 * i + 160)]
    rw [ih (fun j hj => h j (by simp [hj]))]
    simp

lemma readRecsAux_err (buf : Buffer) (is : List Nat)
    (h : ∃ i ∈ is, buf.len < 2 + 160 * i + 160) :
    readRecsAux buf is = .error .TruncatedBuffer := by
  induction is with
  | nil => simp at h
  | cons i t ih =>
    by_cases hi : buf.len < 2 + 160 * i + 160
    · simp [readRecsAux, hi]
    · rcases h with ⟨j, hj, hjl⟩
      rcases List.mem_cons.mp hj with rfl | hjt
      · exact absurd hjl hi
      · simp only [readRecsAux, if_neg hi]
        rw [ih ⟨j, hjt, hjl⟩]

lemma fieldStr_frame (buf buf' : Buffer) (off n bnd : Nat) (hle : off + n ≤ bnd)
    (hb : ∀ j, j < bnd → buf.byte j = buf'.byte j) :
    fieldStr buf off n = fieldStr buf' off n := by
  unfold fieldStr
  congr 1
  apply List.map_congr_left
  intro j hj
  have : j < n := List.mem_range.mp hj
  exact hb (off + j) (by omega)

lemma readRecsAux_frame (buf buf' : Buffer) (hlen : buf.len = buf'.len) (bnd : Nat)
    (hb : ∀ j, j < bnd → buf.byte j = buf'.byte j) (is : List Nat)
    (his : ∀ i ∈ is, 2 + 160 * i + 160 ≤ bnd) :
    readRecsAux buf is = readRecsAux buf' is := by
  induction is with
  | nil => rfl
  | cons i t ih =>
    have hi : 2 + 160 * i + 160 ≤ bnd := his i (by simp)
    have hkey : keyAt buf i = keyAt buf' i :=
      fieldStr_frame buf buf' (2 + 160 * i) 32 bnd (by omega) hb
    have hval : valAt buf i = valAt buf' i :=
      fieldStr_frame buf buf' (2 + 160 * i + 32) 128 bnd (by omega) hb
    simp only [readRecsAux, ← hlen, hkey, hval]
    rw [ih (fun j hj => his j (by simp [hj]))]

lemma atoiChars_zero (s : List Nat) (hs : ∀ b ∈ s, isDigitB b = false) :
    atoiChars s = 0 := by
  unfold atoiChars
  have hsub : ∀ b ∈ s.dropWhile isSpaceB, isDigitB b = false :=
    fun b hb => hs b ((List.dropWhile_sublist _).mem hb)
  cases ht : s.dropWhile isSpaceB with
  | nil => simp
  | cons c rest =>
    have hc : isDigitB c = false := by
      have := hsub c; rw [ht] at this; exact this (by simp)
    have hrest : ∀ b ∈ rest, isDigitB b = false := by
      intro b hb
      have := hsub b; rw [ht] at this; exact this (by simp [hb])
    simp only [ht]
    by_cases h45 : c == 45
    · simp [h45, takeWhile_nil_of_all hrest, digitsToNat]
    · by_cases h43 : c == 43
      · simp [h45, h43, takeWhile_nil_of_all hrest, digitsToNat]
      · simp [h45, h43, List.takeWhile_cons, hc, digitsToNat]

lemma parseCount_nondigit (b0 b1 : Nat) (h0 : isDigitB b0 = false)
    (h1 : isDigitB b1 = false) : parseCount b0 b1 = 0 := by
  unfold parseCount
  have hall : ∀ b ∈ ([b0, b1]).takeWhile (fun b => b != 0), isDigitB b = false := by
    intro b hb
    have hb' : b ∈ [b0, b1] := (List.takeWhile_sublist _).mem hb
    rcases List.mem_cons.mp hb' with rfl | hb''
    · exact h0
    · rcases List.mem_cons.mp hb'' with rfl | h
      · exact h1
      · simp at h
  rw [atoiChars_zero _ hall]
  rfl

lemma decode_some_ok (buf : Buffer) (h2 : 2 ≤ buf.len) (hn : buf.countOf ≤ 100)
    (recs : List (List Nat × List Nat)) (hr : readRecords buf buf.countOf = .ok recs) :
    decode (some buf) = .ok (buildMap recs, flagOf recs) := by
  simp only [decode, if_neg (by omega : ¬ buf.len < 2),
    if_neg (by omega : ¬ 100 < buf.countOf), hr]

lemma decode_count_err (buf : Buffer) (h2 : 2 ≤ buf.len) (hn : 100 < buf.countOf) :
    decode (some buf) = .error .TooManyParameters := by
  simp only [decode, if_neg (by omega : ¬ buf.len < 2), if_pos hn]

lemma ltB_trans (a : List Nat) : ∀ b c, ltB a b = true → ltB b c = true →
    ltB a c = true := by
  induction a with
  | nil =>
    intro b c h1 h2
    cases b with
    | nil => simp [ltB] at h1
    | cons b0 bs =>
      cases c with
      | nil => simp [ltB] at h2
      | cons c0 cs => simp [ltB]
  | cons a0 as ih =>
    intro b c h1 h2
    cases b with
    | nil => simp [ltB] at h1
    | cons b0 bs =>
      cases c with
      | nil => simp [ltB] at h2
      | cons c0 cs =>
        simp only [ltB] at h1 h2 ⊢
        rcases Nat.lt_trichotomy a0 b0 with hab | hab | hab
        · rcases Nat.lt_trichotomy b0 c0 with hbc | hbc | hbc
          · simp [show a0 < c0 by omega]
          · subst hbc; simp [hab]
          · simp [show ¬ b0 < c0 by omega, hbc] at h2
        · subst hab
          rcases Nat.lt_trichotomy a0 c0 with hac | hac | hac
          · simp [hac]
          · subst hac
            simp only [Nat.lt_irrefl, if_false] at h1 h2 ⊢
            exact ih bs cs h1 h2
          · simp [show ¬ a0 < c0 by omega, hac] at h2
        · simp [show ¬ a0 < b0 by omega, hab] at h1

lemma ltB_total (a : List Nat) : ∀ b, a ≠ b → ltB a b = true ∨ ltB b a = true := by
  induction a with
  | nil =>
    intro b h
    cases b with
    | nil => exact absurd rfl h
    | cons b0 bs => left; simp [ltB]
  | cons a0 as ih =>
    intro b h
    cases b with
    | nil => right; simp [ltB]
    | cons b0 bs =>
      rcases Nat.lt_trichotomy a0 b0 with hc | hc | hc
      · left; simp [ltB, hc]
      · subst hc
        have hne : as ≠ bs := fun he => h (by rw [he])
        rcases ih bs hne with h' | h'
        · left; simp [ltB, h']
        · right; simp [ltB, h']
      · right; simp [ltB, hc]

lemma mapInsert_mem (k v : List Nat) (m : List (List Nat × List Nat)) :
    ∀ p ∈ mapInsert k v m, p.1 = k ∨ p ∈ m := by
  induction m with
  | nil => intro p hp; simp [mapInsert] at hp; left; rw [hp]
  | cons q rest ih =>
    intro p hp
    rw [show q = (q.1, q.2) from rfl] at hp
    simp only [mapInsert] at hp
    by_cases h1 : ltB k q.1
    · rw [if_pos h1] at hp
      rcases List.mem_cons.mp hp with rfl | hp'
      · left; rfl
      · right; simpa using hp'
    · rw [if_neg h1] at hp
      by_cases h2 : k == q.1
      · rw [if_pos h2] at hp
        rcases List.mem_cons.mp hp with rfl | hp'
        · left; rfl
        · right; simp [hp']
      · rw [if_neg h2] at hp
        rcases List.mem_cons.mp hp with rfl | hp'
        · right; simp
        · rcases ih p hp' with h | h
          · left; exact h
          · right; simp [h]

lemma mapInsert_sorted (k v : List Nat) (m : List (List Nat × List Nat))
    (h : m.Pairwise (fun a b => ltB a.1 b.1 = true)) :
    (mapInsert k v m).Pairwise (fun a b => ltB a.1 b.1 = true) := by
  induction m with
  | nil => simp [mapInsert]
  | cons q rest ih =>
    rw [List.pairwise_cons] at h
    rw [show q = (q.1, q.2) from rfl]
    simp only [mapInsert]
    by_cases h1 : ltB k q.1
    · rw [if_pos h1]
      refine List.pairwise_cons.mpr ⟨?_, List.pairwise_cons.mpr ⟨h.1, h.2⟩⟩
      intro p hp
      rcases List.mem_cons.mp hp with rfl | hp'
      · exact h1
      · exact ltB_trans k q.1 p.1 h1 (h.1 p hp')
    · rw [if_neg h1]
      by_cases h2 : k == q.1
      · rw [if_pos h2]
        have hk : k = q.1 := by simpa using h2
        refine List.pairwise_cons.mpr ⟨?_, h.2⟩
        intro p hp
        rw [hk]
        exact h.1 p hp
      · rw [if_neg h2]
        have hne : k ≠ q.1 := by simpa using h2
        have hq : ltB q.1 k = true := by
          rcases ltB_total k q.1 hne with h' | h'
          · exact absurd h' h1
          · exact h'
        refine List.pairwise_cons.mpr ⟨?_, ih h.2⟩
        intro p hp
        rcases mapInsert_mem k v rest p hp with rfl | hp'
        · exact hq
        · exact h.1 p hp'

lemma buildMap_sorted_aux (recs init : List (List Nat × List Nat))
    (h : init.Pairwise (fun a b => ltB a.1 b.1 = true)) :
    (recs.foldl (fun m r => mapInsert r.1 r.2 m) init).Pairwise
      (fun a b => ltB a.1 b.1 = true) := by
  induction recs generalizing init with
  | nil => exact h
  | cons r rest ih =>
    exact ih (mapInsert r.1 r.2 init) (mapInsert_sorted r.1 r.2 init h)

lemma buildMap_sorted (recs : List (List Nat × List Nat)) :
    (buildMap recs).Pairwise (fun a b => ltB a.1 b.1 = true) :=
  buildMap_sorted_aux recs [] (by simp)

lemma intercalate_amp (q : List Nat) (qs : List (List Nat)) :
    List.intercalate [38] (q :: qs) = q ++ (qs.map (fun x => 38 :: x)).flatten := by
  induction qs generalizing q with
  | nil => simp [List.intercalate]
  | cons q' qs ih =>
    have h : List.intercalate [38] (q :: q' :: qs) =
        q ++ [38] ++ List.intercalate [38] (q' :: qs) := by
      simp [List.intercalate, List.intersperse]
    rw [h, ih q']
    simp

lemma urlParts_cons (p : List Nat × List Nat) (ps : List (List Nat × List Nat)) :
    urlParts (p :: ps) =
      if p.1 == kCFResp then urlParts ps
      else (p.1 ++ [61] ++ percentEncode p.2) :: urlParts ps := by
  by_cases h : p.1 == kCFResp
  · have h' : (p.1 != kCFResp) = false := by simpa using h
    simp [urlParts, List.filter_cons, h', h]
  · have h' : (p.1 != kCFResp) = true := by simpa using h
    simp [urlParts, List.filter_cons, h', h]

lemma foldl_urlStep_false (ps : List (List Nat × List Nat)) (pre : List Nat) :
    (ps.foldl urlStep (pre, false)).1 =
      pre ++ ((urlParts ps).map (fun x => 38 :: x)).flatten := by
  induction ps generalizing pre with
  | nil => simp [urlParts]
  | cons p rest ih =>
    rw [List.foldl_cons, urlParts_cons]
    by_cases h : p.1 == kCFResp
    · have hstep : urlStep (pre, false) p = (pre, false) := by simp [urlStep, h]
      rw [hstep, if_pos h, ih]
    · have hstep : urlStep (pre, false) p =
          (pre ++ [38] ++ p.1 ++ [61] ++ percentEncode p.2, false) := by
        simp [urlStep, h]
      rw [hstep, if_neg h, ih]
      simp

lemma foldl_urlStep_true (ps : List (List Nat × List Nat)) (pre : List Nat) :
    (ps.foldl urlStep (pre, true)).1 = pre ++ List.intercalate [38] (urlParts ps) := by
  induction ps generalizing pre with
  | nil => simp [urlParts, List.intercalate]
  | cons p rest ih =>
    rw [List.foldl_cons, urlParts_cons]
    by_cases h : p.1 == kCFResp
    · have hstep : urlStep (pre, true) p = (pre, true) := by simp [urlStep, h]
      rw [hstep, if_pos h, ih]
    · have hstep : urlStep (pre, true) p =
          (pre ++ p.1 ++ [61] ++ percentEncode p.2, false) := by
        simp [urlStep, h]
      rw [hstep, if_neg h]
      rw [foldl_urlStep_false, intercalate_amp]
      simp

lemma getD_take_eq (l : List Nat) (k j : Nat) (hj : j < k) :
    (l.take k).getD j 0 = l.getD j 0 := by
  induction l generalizing k j with
  | nil => simp
  | cons a t ih =>
    cases k with
    | zero => omega
    | succ m =>
      cases j with
      | zero => simp
      | succ i => simpa using ih m i (by omega)

lemma strncpyField_getD_content (n : Nat) (s : List Nat) (j : Nat)
    (hj : j < (s.takeWhile (fun b => b != 0)).length) (hj2 : j < n - 1) :
    (strncpyField n s).getD j 0 = s.getD j 0 := by
  have hlen : j < ((s.takeWhile (fun b => b != 0)).take (n - 1)).length := by
    simp [List.length_take]; omega
  rw [strncpyField, List.getD_append _ _ _ _ hlen, getD_take_eq _ _ _ hj2,
    takeWhile_getD _ j 0 hj]

lemma strncpyField_getD_zero (n : Nat) (s : List Nat) (j : Nat)
    (hj : min ((s.takeWhile (fun b => b != 0)).length) (n - 1) ≤ j) (hj2 : j < n) :
    (strncpyField n s).getD j 0 = 0 := by
  have hlen : ((s.takeWhile (fun b => b != 0)).take (n - 1)).length =
      min ((s.takeWhile (fun b => b != 0)).length) (n - 1) := by
    simp [List.length_take]; omega
  rw [strncpyField, List.getD_append_right _ _ _ _ (by omega)]
  rcases Nat.lt_or_ge (j - ((s.takeWhile (fun b => b != 0)).take (n - 1)).length)
      (n - ((s.takeWhile (fun b => b != 0)).take (n - 1)).length) with h | h
  · rw [List.getD_eq_getElem _ _ (by simpa using h)]
    simp
  · rw [List.getD_eq_default _ _ (by simpa using h)]

lemma decode_some_err (buf : Buffer) (h2 : 2 ≤ buf.len) (hn : buf.countOf ≤ 100)
    (e : DecodeError) (hr : readRecords buf buf.countOf = .error e) :
    decode (some buf) = .error e := by
  simp only [decode, if_neg (by omega : ¬ buf.len < 2),
    if_neg (by omega : ¬ 100 < buf.countOf), hr]

lemma parseCount_neg (b1 : Nat) (hd : isDigitB b1 = true) (hz : b1 ≠ 48) :
    parseCount 45 b1 = 4294967296 - (b1 - 48) := by
  have hb : 48 ≤ b1 ∧ b1 ≤ 57 := by
    have h := hd
    simp [isDigitB] at h
    exact h
  have h1 : 49 ≤ b1 := by omega
  have h2 : b1 ≤ 57 := hb.2
  interval_cases b1 <;> decide

lemma getD_drop_eq (l : List Nat) (a i : Nat) :
    (l.drop a).getD i 0 = l.getD (a + i) 0 := by
  induction l generalizing a with
  | nil => simp
  | cons x t ih =>
    cases a with
    | zero => simp
    | succ b =>
      rw [List.drop_succ_cons, show b + 1 + i = (b + i) + 1 from by omega,
        List.getD_cons_succ]
      exact ih b

lemma writeOut_getD_key (body out : List Nat) (j : Nat) (hj : j < 32) :
    (writeOut body out).getD (2 + j) 0 = (strncpyField 32 kCFResp).getD j 0 := by
  have h32 : (strncpyField 32 kCFResp).length = 32 := strncpyField_length 32 kCFResp (by omega)
  have h128 : (strncpyField 128 body).length = 128 := strncpyField_length 128 body (by omega)
  rw [writeOut, List.getD_append _ _ _ _ (by simp [h32, h128]; omega),
    List.getD_append _ _ _ _ (by simp [h32]; omega),
    List.getD_append_right _ _ _ _ (by simp)]
  simp

lemma writeOut_getD_val (body out : List Nat) (j : Nat) (hj : j < 128) :
    (writeOut body out).getD (34 + j) 0 = (strncpyField 128 body).getD j 0 := by
  have h32 : (strncpyField 32 kCFResp).length = 32 := strncpyField_length 32 kCFResp (by omega)
  have h128 : (strncpyField 128 body).length = 128 := strncpyField_length 128 body (by omega)
  rw [writeOut, List.getD_append _ _ _ _ (by simp [h32, h128]; try omega),
    List.getD_append_right _ _ _ _ (by simp [h32]; try omega)]
  congr 1
  simp [h32]

lemma writeOut_getD_rest (body out : List Nat) (j : Nat) (hj : 162 ≤ j) :
    (writeOut body out).getD j 0 = out.getD j 0 := by
  have h32 : (strncpyField 32 kCFResp).length = 32 := strncpyField_length 32 kCFResp (by omega)
  have h128 : (strncpyField 128 body).length = 128 := strncpyField_length 128 body (by omega)
  rw [writeOut, List.getD_append_right _ _ _ _ (by simp [h32, h128]; omega), getD_drop_eq]
  congr 1
  simp [h32, h128]
  omega

end Lemmas

/-- Claim C1: for buffers whose header declares count `n ≤ 100`, decode
reads no byte at an offset at or beyond `2 + n*160`: its result depends only
on the length and the bytes strictly below that bound.  And when the buffer
is shorter than `valueOffset + 128` for some record `i < n`
(`valueOffset = 2 + i*160 + 32`), decode fails with `TruncatedBuffer`
instead of reading out of bounds. -/
theorem c1_decode_bounds :
    (∀ buf buf' : Buffer, buf.len = buf'.len → buf.countOf ≤ 100 →
      (∀ j, j < 2 + 160 * buf.countOf → buf.byte j = buf'.byte j) →
      decode (some buf) = decode (some buf')) ∧
    (∀ (buf : Buffer) (i : Nat), 2 ≤ buf.len → buf.countOf ≤ 100 →
      i < buf.countOf → buf.len < (2 + 160 * i + 32) + 128 →
      decode (some buf) = .error .TruncatedBuffer) := by
  constructor
  · intro buf buf' hlen hn hb
    have hb0 : buf.byte 0 = buf'.byte 0 := hb 0 (by omega)
    have hb1 : buf.byte 1 = buf'.byte 1 := hb 1 (by omega)
    have hcnt : buf'.countOf = buf.countOf := by
      unfold Buffer.countOf
      rw [hb0, hb1]
    by_cases h2 : buf.len < 2
    · simp [decode, if_pos h2, if_pos (show buf'.len < 2 by omega)]
    · have hrr : readRecords buf buf.countOf = readRecords buf' buf.countOf := by
        apply readRecsAux_frame buf buf' hlen (2 + 160 * buf.countOf) hb
        intro i hi
        have : i < buf.countOf := List.mem_range.mp hi
        omega
      simp only [decode, if_neg h2, if_neg (show ¬ buf'.len < 2 by omega), hcnt, hrr]
  · intro buf i h2 hn hi hshort
    apply decode_some_err buf h2 hn
    apply readRecsAux_err
    exact ⟨i, List.mem_range.mpr hi, by omega⟩

/-- Witness for C1: two length-2 buffers "00" agreeing below the bound but
differing beyond it decode identically; a buffer "01" of length 2 is too
short for its declared record and fails with TruncatedBuffer. -/
theorem c1_decode_bounds_witness :
    decode (some (Buffer.ofList [48, 48])) =
      decode (some ⟨2, fun j => if j < 2 then [48, 48].getD j 0 else 99⟩) ∧
    decode (some (Buffer.ofList [48, 49])) = .error .TruncatedBuffer := by
  constructor
  · exact c1_decode_bounds.1 (Buffer.ofList [48, 48])
      ⟨2, fun j => if j < 2 then [48, 48].getD j 0 else 99⟩ rfl (by decide) (by decide)
  · exact c1_decode_bounds.2 (Buffer.ofList [48, 49]) 0 (by decide) (by decide)
      (by decide) (by decide)

/-- Claim C2: a null input buffer, or one shorter than 2 bytes, makes the
entry point fail with `InvalidInput` (result code 1), without reading any
parameter record — on such buffers the decode result does not depend on the
buffer contents at all. -/
theorem c2_invalid_input (dout : Option (List Nat)) (tr : Except Unit (Int × List Nat))
    (buf buf' : Buffer) (hshort : buf.len < 2) (hlen : buf.len = buf'.len) :
    decode none = .error .InvalidInput ∧
    CustomFunctionExample none dout tr = (1, dout) ∧
    decode (some buf) = .error .InvalidInput ∧
    CustomFunctionExample (some buf) dout tr = (1, dout) ∧
    decode (some buf) = decode (some buf') := by
  have hd : decode (some buf) = .error .InvalidInput := by
    simp [decode, if_pos hshort]
  have hd' : decode (some buf') = .error .InvalidInput := by
    simp [decode, if_pos (show buf'.len < 2 by omega)]
  refine ⟨rfl, rfl, hd, ?_, by rw [hd, hd']⟩
  simp [CustomFunctionExample, hd]

/-- Witness for C2: a concrete 1-byte buffer and the null buffer. -/
theorem c2_invalid_input_witness :
    decode (some ⟨1, fun _ => 48⟩) = .error .InvalidInput ∧
    CustomFunctionExample none none (.error ()) = (1, none) := by
  have h := c2_invalid_input none (.error ()) ⟨1, fun _ => 48⟩ ⟨1, fun _ => 0⟩
    (by decide) rfl
  exact ⟨h.2.2.1, h.2.1⟩

/-- Claim C6: a parsed count above 100 fails with `TooManyParameters`; a
parsed count within the limit succeeds structurally (one record per declared
parameter) whenever the buffer is at least `2 + 160*count` bytes. -/
theorem c6_count_limit (buf : Buffer) (h2 : 2 ≤ buf.len) :
    (100 < buf.countOf → decode (some buf) = .error .TooManyParameters) ∧
    (buf.countOf ≤ 100 → 2 + 160 * buf.countOf ≤ buf.len →
      decode (some buf) =
        .ok (buildMap ((List.range buf.countOf).map
              (fun i => (keyAt buf i, valAt buf i))),
            flagOf ((List.range buf.countOf).map
              (fun i => (keyAt buf i, valAt buf i))))) := by
  constructor
  · exact fun h => decode_count_err buf h2 h
  · intro hn hlen
    have hr : readRecords buf buf.countOf =
        .ok ((List.range buf.countOf).map (fun i => (keyAt buf i, valAt buf i))) := by
      apply readRecsAux_ok
      intro i hi
      have : i < buf.countOf := List.mem_range.mp hi
      omega
    exact decode_some_ok buf h2 hn _ hr

set_option maxRecDepth 8000 in
/-- Witness for C6: header "-1" wraps to a count above 100 and fails; a
length-162 buffer with header "01" decodes to one (empty-key) record. -/
theorem c6_count_limit_witness :
    decode (some (Buffer.ofList [45, 49])) = .error .TooManyParameters ∧
    decode (some (Buffer.ofList ([48, 49] ++ List.replicate 160 0))) =
      .ok ([([], [])], false) := by
  constructor
  · exact (c6_count_limit (Buffer.ofList [45, 49]) (by decide)).1 (by decide)
  · have h := (c6_count_limit (Buffer.ofList ([48, 49] ++ List.replicate 160 0))
      (by decide)).2 (by decide) (by decide)
    rw [h]
    decide

/-- Claim C7: a header of two non-digit bytes parses permissively to count
0, so decode succeeds with an empty ParameterSet (and a false control flag)
rather than failing. -/
theorem c7_nondigit_header (buf : Buffer) (h2 : 2 ≤ buf.len)
    (h0 : isDigitB (buf.byte 0) = false) (h1 : isDigitB (buf.byte 1) = false) :
    buf.countOf = 0 ∧ decode (some buf) = .ok ([], false) := by
  have hc : buf.countOf = 0 := parseCount_nondigit _ _ h0 h1
  refine ⟨hc, ?_⟩
  have hr : readRecords buf buf.countOf = .ok [] := by rw [hc]; rfl
  have hd := decode_some_ok buf h2 (by omega) [] hr
  simpa [buildMap, flagOf] using hd

/-- Witness for C7: the header "AB". -/
theorem c7_nondigit_header_witness :
    (Buffer.ofList [65, 66]).countOf = 0 ∧
    decode (some (Buffer.ofList [65, 66])) = .ok ([], false) :=
  c7_nondigit_header (Buffer.ofList [65, 66]) (by decide) (by decide) (by decide)

/-- Claim C10: a header consisting of a minus sign followed by a nonzero
digit parses to a negative int whose conversion to unsigned wraps modulo
2^32 to a count far above 100, so the call fails in the TooManyParameters
branch with result code 1 (rather than being treated as 0 parameters). -/
theorem c10_negative_count_wraps (buf : Buffer) (dout : Option (List Nat))
    (tr : Except Unit (Int × List Nat)) (h2 : 2 ≤ buf.len)
    (h0 : buf.byte 0 = 45) (h1 : isDigitB (buf.byte 1) = true)
    (hz : buf.byte 1 ≠ 48) :
    buf.countOf = 4294967296 - (buf.byte 1 - 48) ∧
    100 < buf.countOf ∧
    decode (some buf) = .error .TooManyParameters ∧
    CustomFunctionExample (some buf) dout tr = (1, dout) := by
  have hb : 48 ≤ buf.byte 1 ∧ buf.byte 1 ≤ 57 := by
    have h := h1
    simp [isDigitB] at h
    exact h
  have hc : buf.countOf = 4294967296 - (buf.byte 1 - 48) := by
    unfold Buffer.countOf
    rw [h0]
    exact parseCount_neg _ h1 hz
  have hgt : 100 < buf.countOf := by omega
  have hd := decode_count_err buf h2 hgt
  exact ⟨hc, hgt, hd, by simp [CustomFunctionExample, hd]⟩

/-- Witness for C10: the header "-5". -/
theorem c10_negative_count_wraps_witness :
    (Buffer.ofList [45, 53]).countOf = 4294967291 ∧
    decode (some (Buffer.ofList [45, 53])) = .error .TooManyParameters ∧
    CustomFunctionExample (some (Buffer.ofList [45, 53])) none (.error ()) = (1, none) := by
  have h := c10_negative_count_wraps (Buffer.ofList [45, 53]) none (.error ())
    (by decide) (by decide) (by decide) (by decide)
  exact ⟨h.1, h.2.2.1, h.2.2.2⟩

set_option maxRecDepth 8000 in
/-- Claim C3 counterexample: on the concrete buffer with records
(CFResp, yes) then (CFResp, no), the decoded control flag is true while
last-write-wins leaves value "no" (not "yes") under "CFResp" in the
resulting ParameterSet — so the flag is not equivalent to the final map
containing "CFResp" ↦ "yes". -/
theorem c3_counterexample :
    decode (some (Buffer.ofList dupBuf)) = .ok ([(kCFResp, kNo)], true) ∧
    ([(kCFResp, kNo)] : List (List Nat × List Nat)).lookup kCFResp = some kNo ∧
    kNo ≠ kYes := by
  refine ⟨by decide, by decide, by decide⟩

/-- Claim C3 (amended): the control flag is true iff at least one decoded
record has key "CFResp" and value exactly "yes".  The flag is computed
per-record in the decode loop and is sticky, so with duplicate "CFResp"
records it can be true even though last-write-wins leaves a different value
in the resulting ParameterSet. -/
theorem c3_control_flag (buf : Buffer) (recs : List (List Nat × List Nat))
    (h2 : 2 ≤ buf.len) (hn : buf.countOf ≤ 100)
    (hr : readRecords buf buf.countOf = .ok recs) :
    decode (some buf) = .ok (buildMap recs, flagOf recs) ∧
    (flagOf recs = true ↔ (kCFResp, kYes) ∈ recs) := by
  refine ⟨decode_some_ok buf h2 hn recs hr, ?_⟩
  rw [flagOf, List.any_eq_true]
  constructor
  · rintro ⟨r, hmem, hp⟩
    have h1 : r.1 = kCFResp ∧ r.2 = kYes := by
      constructor <;> [exact eq_of_beq (Bool.and_eq_true_iff.mp hp).1;
        exact eq_of_beq (Bool.and_eq_true_iff.mp hp).2]
    have : r = (kCFResp, kYes) := Prod.ext h1.1 h1.2
    rwa [this] at hmem
  · intro h
    exact ⟨(kCFResp, kYes), h, by simp⟩

set_option maxRecDepth 8000 in
/-- Witness for the amended C3 at the duplicate-record buffer. -/
theorem c3_control_flag_witness :
    decode (some (Buffer.ofList dupBuf)) =
      .ok (buildMap [(kCFResp, kYes), (kCFResp, kNo)],
           flagOf [(kCFResp, kYes), (kCFResp, kNo)]) ∧
    (flagOf [(kCFResp, kYes), (kCFResp, kNo)] = true ↔
      (kCFResp, kYes) ∈ [(kCFResp, kYes), (kCFResp, kNo)]) :=
  c3_control_flag (Buffer.ofList dupBuf) [(kCFResp, kYes), (kCFResp, kNo)]
    (by decide) (by decide) (by decide)

/-- Claim C5: when the control flag is true, an output buffer is supplied
and the exchange succeeds with a 2xx status, the mapper writes exactly the
2-byte header "01", a 32-byte key field holding "CFResp" null-padded, and a
128-byte value field holding the response body truncated per strncpy
truncation-with-null-termination semantics: the first (at most 127) content
bytes preserved, the remainder of the field zero, and byte 128 of the value
field (overall offset 161) always zero; bytes past offset 161 are
untouched. -/
theorem c5_output_layout (buf : Buffer) (out body : List Nat) (status : Int)
    (ps : List (List Nat × List Nat))
    (hdec : decode (some buf) = .ok (ps, true))
    (hs1 : 200 ≤ status) (hs2 : status < 300) :
    CustomFunctionExample (some buf) (some out) (.ok (status, body)) =
      (0, some (writeOut body out)) ∧
    (writeOut body out).getD 0 0 = 48 ∧
    (writeOut body out).getD 1 0 = 49 ∧
    (∀ j, j < 6 → (writeOut body out).getD (2 + j) 0 = kCFResp.getD j 0) ∧
    (∀ j, 6 ≤ j → j < 32 → (writeOut body out).getD (2 + j) 0 = 0) ∧
    (∀ j, j < (body.takeWhile (fun b => b != 0)).length → j < 127 →
      (writeOut body out).getD (34 + j) 0 = body.getD j 0) ∧
    (∀ j, (body.takeWhile (fun b => b != 0)).length ≤ j → j < 128 →
      (writeOut body out).getD (34 + j) 0 = 0) ∧
    (writeOut body out).getD 161 0 = 0 ∧
    (∀ j, 162 ≤ j → (writeOut body out).getD j 0 = out.getD j 0) := by
  have hc1 : ¬ status < 200 := by omega
  have hc2 : ¬ 300 ≤ status := by omega
  have hkey : (kCFResp.takeWhile (fun b => b != 0)) = kCFResp := by decide
  refine ⟨by simp [CustomFunctionExample, hdec, hc1, hc2], rfl, rfl, ?_, ?_, ?_, ?_, ?_, ?_⟩
  · intro j hj
    rw [writeOut_getD_key body out j (by omega),
      strncpyField_getD_content 32 kCFResp j (by rw [hkey]; simp [kCFResp]; omega)
        (by omega)]
  · intro j hj1 hj2
    rw [writeOut_getD_key body out j (by omega),
      strncpyField_getD_zero 32 kCFResp j (by rw [hkey]; simp [kCFResp]; omega)
        (by omega)]
  · intro j hj1 hj2
    rw [writeOut_getD_val body out j (by omega),
      strncpyField_getD_content 128 body j hj1 (by omega)]
  · intro j hj1 hj2
    rw [writeOut_getD_val body out j (by omega),
      strncpyField_getD_zero 128 body j (by omega) (by omega)]
  · rw [show (161 : Nat) = 34 + 127 from rfl,
      writeOut_getD_val body out 127 (by omega),
      strncpyField_getD_zero 128 body 127 (by omega) (by omega)]
  · intro j hj
    exact writeOut_getD_rest body out j hj

set_option maxRecDepth 8000 in
/-- Witness for C5: a "CFResp=yes" single-record buffer, an all-zero output
buffer and body "hi" at status 200. -/
theorem c5_output_layout_witness :
    CustomFunctionExample
        (some (Buffer.ofList ([48, 49] ++ padF 32 kCFResp ++ padF 128 kYes)))
        (some (List.replicate 162 0)) (.ok (200, [104, 105])) =
      (0, some (writeOut [104, 105] (List.replicate 162 0))) ∧
    (writeOut [104, 105] (List.replicate 162 0)).getD 0 0 = 48 ∧
    (writeOut [104, 105] (List.replicate 162 0)).getD 34 0 = 104 ∧
    (writeOut [104, 105] (List.replicate 162 0)).getD 161 0 = 0 := by
  have h := c5_output_layout
    (Buffer.ofList ([48, 49] ++ padF 32 kCFResp ++ padF 128 kYes))
    (List.replicate 162 0) [104, 105] 200 [(kCFResp, kYes)]
    (by decide) (by omega) (by omega)
  exact ⟨h.1, h.2.1,
    by
      have := h.2.2.2.2.2.1 0 (by decide) (by omega)
      simpa using this,
    h.2.2.2.2.2.2.2.1⟩

/-- Claim C9: when the decoded input has no "CFResp" record the control
flag is false, so on a successful 2xx exchange the entry point returns
result code 0 and leaves the supplied output buffer (if any) completely
unchanged. -/
theorem c9_output_untouched (buf : Buffer) (dout : Option (List Nat))
    (status : Int) (body : List Nat) (recs : List (List Nat × List Nat))
    (h2 : 2 ≤ buf.len) (hn : buf.countOf ≤ 100)
    (hr : readRecords buf buf.countOf = .ok recs)
    (hno : ∀ r ∈ recs, r.1 ≠ kCFResp)
    (hs1 : 200 ≤ status) (hs2 : status < 300) :
    CustomFunctionExample (some buf) dout (.ok (status, body)) = (0, dout) := by
  have hflag : flagOf recs = false := by
    rw [flagOf]
    rw [List.any_eq_false]
    intro r hmem
    have h1 : r.1 ≠ kCFResp := hno r hmem
    simp [h1]
  have hd := decode_some_ok buf h2 hn recs hr
  have hc1 : ¬ status < 200 := by omega
  have hc2 : ¬ 300 ≤ status := by omega
  cases dout with
  | none => simp [CustomFunctionExample, hd, hflag, hc1, hc2]
  | some out => simp [CustomFunctionExample, hd, hflag, hc1, hc2]

set_option maxRecDepth 8000 in
/-- Witness for C9: a single-record (tel, 0744) buffer with an all-zero
supplied output buffer: result code 0, buffer still all zeros. -/
theorem c9_output_untouched_witness :
    CustomFunctionExample (some (Buffer.ofList telBuf))
        (some (List.replicate 162 0)) (.ok (200, [104, 105])) =
      (0, some (List.replicate 162 0)) :=
  c9_output_untouched (Buffer.ofList telBuf) (some (List.replicate 162 0))
    200 [104, 105] [([116, 101, 108], [48, 55, 52, 52])]
    (by decide) (by decide) (by decide) (by decide) (by omega) (by omega)

/-- Claim C4: buildUrl is config.baseUrl then "?" then the pairs in map
order with "CFResp" omitted, each emitted as key "=" percentEncode(value)
and joined by "&" — keys are emitted raw, not percent-encoded; the
ParameterSet decode builds is in strictly ascending key order; and
percentEncode leaves unreserved bytes (letters, digits, `-`, `.`, `_`, `~`)
unchanged while encoding every other byte as a percent triple, space as
%20 (never "+"), e.g. "a b&c" becomes "a%20b%26c". -/
theorem c4_build_url :
    (∀ (ps : List (List Nat × List Nat)) (config : RequestConfig),
      buildUrl ps config = config.baseUrl ++ [63] ++
        List.intercalate [38] ((ps.filter (fun p => p.1 != kCFResp)).map
          (fun p => p.1 ++ [61] ++ percentEncode p.2))) ∧
    (∀ recs, (buildMap recs).Pairwise (fun a b => ltB a.1 b.1 = true)) ∧
    (∀ b, isUnreservedB b = true → percentEncode [b] = [b]) ∧
    (∀ b, isUnreservedB b = false →
      percentEncode [b] = [37, hexDigitB (b / 16), hexDigitB (b % 16)]) ∧
    percentEncode [97, 32, 98, 38, 99] = [97, 37, 50, 48, 98, 37, 50, 54, 99] := by
  refine ⟨?_, buildMap_sorted, ?_, ?_, by decide⟩
  · intro ps config
    rw [buildUrl, foldl_urlStep_true]
    simp [urlParts, List.append_assoc]
  · intro b hb
    simp [percentEncode, percentEncodeByte, hb]
  · intro b hb
    simp [percentEncode, percentEncodeByte, hb]

/-- Witness for C4: the map a ↦ 1, CFResp ↦ yes, b ↦ 2 over base URL "u"
yields "u?a=1&b=2"; percentEncode fixes letter "A" and encodes space. -/
theorem c4_build_url_witness :
    buildUrl [([97], [49]), (kCFResp, kYes), ([98], [50])] ⟨[117], 4, 2, true, []⟩ =
      [117, 63, 97, 61, 49, 38, 98, 61, 50] ∧
    percentEncode [65] = [65] ∧
    percentEncode [32] = [37, 50, 48] := by
  refine ⟨?_, c4_build_url.2.2.1 65 (by decide), c4_build_url.2.2.2.1 32 (by decide)⟩
  rw [c4_build_url.1]
  decide

/-- Claim C8: encoding a single key/value pair with the outbound encoder
(header "01", 32-byte key field, 128-byte value field, strncpy fill) and
decoding the resulting 162-byte buffer with the inbound decoder recovers
that single pair, each component being the bytes of the original up to its
first zero byte as they fit in the fixed field (31 content bytes for the
key, 127 for the value — the encoder always leaves the field's last byte
zero), with the control flag set exactly when the recovered pair is
(CFResp, yes). -/
theorem c8_round_trip (k v : List Nat) :
    decode (some (Buffer.ofList (encodePair k v))) =
      .ok ([((k.takeWhile (fun b => b != 0)).take 31,
             (v.takeWhile (fun b => b != 0)).take 127)],
        (((k.takeWhile (fun b => b != 0)).take 31 == kCFResp) &&
         ((v.takeWhile (fun b => b != 0)).take 127 == kYes))) := by
  have h32 : (strncpyField 32 k).length = 32 := strncpyField_length 32 k (by omega)
  have h128 : (strncpyField 128 v).length = 128 := strncpyField_length 128 v (by omega)
  have hlen : (encodePair k v).length = 162 := by
    simp [encodePair, h32, h128]
  have hblen : (Buffer.ofList (encodePair k v)).len = 162 := hlen
  have hb0 : (Buffer.ofList (encodePair k v)).byte 0 = 48 := by
    simp [Buffer.ofList, encodePair]
  have hb1 : (Buffer.ofList (encodePair k v)).byte 1 = 49 := by
    simp [Buffer.ofList, encodePair]
  have hcnt : (Buffer.ofList (encodePair k v)).countOf = 1 := by
    unfold Buffer.countOf
    rw [hb0, hb1]
    decide
  have hdrop2 : (encodePair k v).drop 2 = strncpyField 32 k ++ strncpyField 128 v := by
    rw [encodePair, List.append_assoc]
    exact List.drop_left [48, 49] _
  have hdrop34 : (encodePair k v).drop 34 = strncpyField 128 v := by
    rw [encodePair]
    have h34 : ([48, 49] ++ strncpyField 32 k).length = 34 := by simp [h32]
    rw [show (34 : Nat) = ([48, 49] ++ strncpyField 32 k).length from h34.symm]
    exact List.drop_left _ _
  have hkeyAt : keyAt (Buffer.ofList (encodePair k v)) 0 =
      (k.takeWhile (fun b => b != 0)).take 31 := by
    rw [keyAt, fieldStr]
    have hwin : (List.range 32).map
        (fun j => (Buffer.ofList (encodePair k v)).byte (2 + 160 * 0 + j)) =
        ((encodePair k v).drop 2).take 32 := by
      have := rangeMap_window (encodePair k v) 2 32 (by omega)
      simpa [Buffer.ofList] using this
    have htl : (strncpyField 32 k ++ strncpyField 128 v).take 32 = strncpyField 32 k := by
      rw [List.take_append_eq_append_take, List.take_of_length_le (le_of_eq h32), h32]
      simp
    rw [hwin, hdrop2, htl, takeWhile_strncpyField]
  have hvalAt : valAt (Buffer.ofList (encodePair k v)) 0 =
      (v.takeWhile (fun b => b != 0)).take 127 := by
    rw [valAt, fieldStr]
    have hwin : (List.range 128).map
        (fun j => (Buffer.ofList (encodePair k v)).byte (2 + 160 * 0 + 32 + j)) =
        ((encodePair k v).drop 34).take 128 := by
      have := rangeMap_window (encodePair k v) 34 128 (by omega)
      simpa [Buffer.ofList] using this
    rw [hwin, hdrop34, List.take_of_length_le (le_of_eq h128), takeWhile_strncpyField]
  have hrr : readRecords (Buffer.ofList (encodePair k v))
      (Buffer.ofList (encodePair k v)).countOf =
      .ok [(( k.takeWhile (fun b => b != 0)).take 31,
            (v.takeWhile (fun b => b != 0)).take 127)] := by
    rw [hcnt, readRecords, show List.range 1 = [0] from rfl,
      readRecsAux_ok _ [0] (by intro i hi; simp at hi; subst hi; omega)]
    simp [hkeyAt, hvalAt]
  have hd := decode_some_ok (Buffer.ofList (encodePair k v)) (by omega) (by omega) _ hrr
  rw [hd]
  simp [buildMap, mapInsert, flagOf]

end OScape
